import Mathlib

/-!
Shallow embedding of the VRP routing demo (`main.js`): route metrics,
the Nearest-Neighbor and Clarke-Wright Savings constructors, the 2-Opt
improver, the solution evaluator, and the feasibility check wired into
`solveVRP`.  JavaScript numbers are modelled as exact rationals; the
possibly-undefined `fuelConsumption` global is an `Option ℚ` whose
absence propagates as NaN, mirroring `undefined` arithmetic.
Route node indices are natural numbers: 0 is the depot, customers are
1..C in input order; the distance and duration matrices are total
functions `Nat → Nat → ℚ` (a complete matrix).
-/

set_option allowUnsafeReducibility true

attribute [semireducible] Rat.add Rat.mul Rat.sub Rat.div Rat.neg Rat.inv

/-- One JavaScript numeric value: either an exact number or NaN
(the result of arithmetic on `undefined`). -/
inductive JSNum where
  | num (q : ℚ)
  | nan
deriving DecidableEq

/-- JavaScript addition on possibly-NaN values: NaN propagates. -/
def jsAdd : JSNum → JSNum → JSNum
  | JSNum.num a, JSNum.num b => JSNum.num (a + b)
  | _, _ => JSNum.nan

/-- `calculateRouteDistance` from `main.js`: sum of
`distanceMatrix[route[i]][route[i+1]]` over consecutive pairs. -/
def calculateRouteDistance (dm : Nat → Nat → ℚ) (route : List Nat) : ℚ :=
  (route.zip route.tail).foldl (fun acc p => acc + dm p.1 p.2) 0

/-- `calculateRouteTime` from `main.js`: same summation over the
duration matrix. -/
def calculateRouteTime (tm : Nat → Nat → ℚ) (route : List Nat) : ℚ :=
  (route.zip route.tail).foldl (fun acc p => acc + tm p.1 p.2) 0

/-- `calculateRouteEnergy` from `main.js`:
`(distance / 100) * fuelConsumption`.  The global `fuelConsumption` is
copied verbatim from the loaded JSON, so it may be `undefined`
(modelled as `none`), in which case the JavaScript product is NaN. -/
def calculateRouteEnergy (dm : Nat → Nat → ℚ) (fuelConsumption : Option ℚ)
    (route : List Nat) : JSNum :=
  match fuelConsumption with
  | some f => JSNum.num (calculateRouteDistance dm route / 100 * f)
  | none => JSNum.nan

/-- The demand of customer `c` (1-based node index): field `demand` of
`destinations[c-1]`. -/
def demandOf (demands : List ℚ) (c : Nat) : ℚ :=
  demands.getD (c - 1) 0

/-- Sum of the demands of the customers (non-depot node indices) of a
route, used to state the capacity invariant. -/
def routeDemandSum (demands : List ℚ) (route : List Nat) : ℚ :=
  ((route.filter (fun x => decide (x ≠ 0))).map (demandOf demands)).sum

/-- The `vehicleColors` palette from `main.js`. -/
def vehicleColors : List String :=
  ["#e74c3c", "#3498db", "#2ecc71", "#f39c12", "#9b59b6",
   "#1abc9c", "#e67e22", "#34495e", "#16a085", "#c0392b"]

/-- The record returned by `evaluateSolution`. -/
structure Solution where
  algorithm : String
  distance : ℚ
  time : ℚ
  energy : JSNum
  vehicles : Nat
  routes : List (List Nat)
  color : String
deriving DecidableEq

/-- `evaluateSolution` from `main.js`: accumulates distance, time and
energy over the route list; `vehicles` is `routes.length`. -/
def evaluateSolution (dm tm : Nat → Nat → ℚ) (fuelConsumption : Option ℚ)
    (routes : List (List Nat)) (algorithmName : String) (colorIndex : Nat) :
    Solution where
  algorithm := algorithmName
  distance := routes.foldl (fun acc r => acc + calculateRouteDistance dm r) 0
  time := routes.foldl (fun acc r => acc + calculateRouteTime tm r) 0
  energy := routes.foldl
    (fun acc r => jsAdd acc (calculateRouteEnergy dm fuelConsumption r)) (JSNum.num 0)
  vehicles := routes.length
  routes := routes
  color := vehicleColors.getD (colorIndex % vehicleColors.length) ""

/-- Which `alert` the `validateProblem` function of `main.js` raises,
or `ok` when it returns `true`.  The checks run in source order. -/
inductive ValidationOutcome where
  | warnDemand
  | errNoDestinations
  | errNoDepot
  | ok
deriving DecidableEq

/-- `validateProblem` from `main.js`: total demand versus
`numVehicles * vehicleCapacity`, then presence of destinations, then
presence of the depot.  Every branch except `ok` makes the JavaScript
function return `false`. -/
def validateProblem (demands : List ℚ) (numVehicles : Nat) (vehicleCapacity : ℚ)
    (hasDepot : Bool) : ValidationOutcome :=
  if (numVehicles : ℚ) * vehicleCapacity < demands.sum then ValidationOutcome.warnDemand
  else if demands.length = 0 then ValidationOutcome.errNoDestinations
  else if hasDepot = false then ValidationOutcome.errNoDepot
  else ValidationOutcome.ok

/-!
Nearest Neighbor (`nearestNeighborVRP` in `main.js`).  The mutable
`unvisited` array of customer objects is modelled as the list of their
1-based node indices (`destinations.indexOf(u) + 1`); JavaScript object
identity makes this faithful since the loaded destinations are distinct
objects.  The inner `while` loop removes one element per iteration, so
it is written with a structural counter instantiated at
`unvisited.length`; the trailing `while` loop of the source (assign
leftover customers to extra vehicles) genuinely may not terminate, so
it takes an explicit fuel and returns `none` when the fuel runs out
while its guard still holds.
-/

/-- The scan of the inner `for` loop of `nearestNeighborVRP`:
walk `unvisited` from position `i` keeping the best
`(position, distance)` seen so far; a candidate replaces the best one
exactly when its distance is strictly smaller (`Infinity` initially,
i.e. `none`) and its demand still fits the capacity. -/
def findNearestAux (dm : Nat → Nat → ℚ) (demands : List ℚ) (cap : ℚ)
    (pos : Nat) (load : ℚ) :
    List Nat → Nat → Option (Nat × ℚ) → Option (Nat × ℚ)
  | [], _, best => best
  | c :: rest, i, best =>
    let dist := dm pos c
    let closer : Bool :=
      match best with
      | none => true
      | some (_, bd) => decide (dist < bd)
    let fits : Bool := decide (load + demandOf demands c ≤ cap)
    if closer && fits then
      findNearestAux dm demands cap pos load rest (i + 1) (some (i, dist))
    else
      findNearestAux dm demands cap pos load rest (i + 1) best

/-- Position in `unvisited` of the nearest unvisited customer that
fits, or `none` (`nearestIdx === -1`). -/
def findNearest (dm : Nat → Nat → ℚ) (demands : List ℚ) (cap : ℚ)
    (pos : Nat) (load : ℚ) (unvisited : List Nat) : Option Nat :=
  (findNearestAux dm demands cap pos load unvisited 0 none).map Prod.fst

/-- The inner `while (unvisited.length > 0)` loop of
`nearestNeighborVRP`: repeatedly pick the nearest fitting customer,
splice it out of `unvisited`, append it to the route and add its
demand to the load; stop when no candidate fits.  Returns the customer
sequence of the route (without the depot endpoints) and the remaining
unvisited list.  The structural counter is instantiated at
`unvisited.length`, which the loop can never exceed since every
iteration removes one element. -/
def nnBuild (dm : Nat → Nat → ℚ) (demands : List ℚ) (cap : ℚ) :
    Nat → List Nat → Nat → ℚ → List Nat × List Nat
  | 0, unvisited, _, _ => ([], unvisited)
  | n + 1, unvisited, pos, load =>
    match findNearest dm demands cap pos load unvisited with
    | none => ([], unvisited)
    | some i =>
      let c := unvisited.getD i 0
      let rest := unvisited.eraseIdx i
      let r := nnBuild dm demands cap n rest c (load + demandOf demands c)
      (c :: r.1, r.2)

/-- One vehicle's route construction followed by the
`if (route.length > 2)` push: the route `[0] ++ customers ++ [0]` is
appended only when it served at least one customer. -/
def nnStep (dm : Nat → Nat → ℚ) (demands : List ℚ) (cap : ℚ)
    (unvisited : List Nat) (acc : List (List Nat)) :
    List (List Nat) × List Nat :=
  let b := nnBuild dm demands cap unvisited.length unvisited 0 0
  (if b.1.isEmpty then acc else acc ++ [0 :: b.1 ++ [0]], b.2)

/-- The `for (let v = 0; v < numVehicles && unvisited.length > 0; v++)`
loop of `nearestNeighborVRP`, structural on the remaining vehicle
count. -/
def nnVehicleLoop (dm : Nat → Nat → ℚ) (demands : List ℚ) (cap : ℚ) :
    Nat → List Nat → List (List Nat) → List (List Nat) × List Nat
  | 0, unvisited, acc => (acc, unvisited)
  | v + 1, unvisited, acc =>
    if unvisited.isEmpty then (acc, unvisited)
    else
      let s := nnStep dm demands cap unvisited acc
      nnVehicleLoop dm demands cap v s.2 s.1

/-- The trailing
`while (unvisited.length > 0 && vehicleRoutes.length < numVehicles)`
loop of `nearestNeighborVRP`, with explicit fuel: `none` means the
fuel ran out while the guard still held (the source loop is still
spinning). -/
def nnSecondLoop (dm : Nat → Nat → ℚ) (demands : List ℚ) (cap : ℚ)
    (numVehicles : Nat) :
    Nat → List Nat → List (List Nat) → Option (List (List Nat))
  | 0, unvisited, acc =>
    if unvisited.isEmpty = false ∧ acc.length < numVehicles then none else some acc
  | f + 1, unvisited, acc =>
    if unvisited.isEmpty = false ∧ acc.length < numVehicles then
      let s := nnStep dm demands cap unvisited acc
      nnSecondLoop dm demands cap numVehicles f s.2 s.1
    else some acc

/-- `nearestNeighborVRP` from `main.js`.  `unvisited` starts as all
customers in input order (node indices `1..C`); the result is `none`
when the trailing loop of the source diverges within the given fuel. -/
def nearestNeighborVRP (dm : Nat → Nat → ℚ) (demands : List ℚ) (cap : ℚ)
    (numVehicles : Nat) (fuel : Nat) : Option (List (List Nat)) :=
  let p := nnVehicleLoop dm demands cap numVehicles (List.range' 1 demands.length) []
  nnSecondLoop dm demands cap numVehicles fuel p.2 p.1

/-!
Clarke-Wright Savings (`savingsAlgorithmVRP` in `main.js`).  The
route records `{route, load, ends: {start, end}}` become `SRec`;
`Array.prototype.find` followed by `indexOf` on the found object is
modelled as first-match position search (object identity equals
position identity on the reachable states, where all records in the
array are distinct objects).  `Array.prototype.sort` with comparator
`(a, b) => b.saving - a.saving` is a stable descending sort by saving,
modelled by a stable insertion sort.
-/

/-- A savings-algorithm route record: the node list, its load, and the
first and last customer of the route (`ends.start` / `ends.end`). -/
structure SRec where
  route : List Nat
  load : ℚ
  rstart : Nat
  rend : Nat
deriving DecidableEq

/-- The pair list built by the nested savings loops: for `1 ≤ i < j ≤ C`
in that iteration order, `(i, j, d(0,i) + d(0,j) - d(i,j))`. -/
def savingsPairs (dm : Nat → Nat → ℚ) (n : Nat) : List (Nat × Nat × ℚ) :=
  (List.range' 1 n).flatMap fun i =>
    (List.range' (i + 1) (n - i)).map fun j => (i, j, dm 0 i + dm 0 j - dm i j)

/-- Stable insertion into a list sorted by descending saving: an
element moves past entries with a strictly smaller saving only. -/
def insertSavingDesc (s : Nat × Nat × ℚ) :
    List (Nat × Nat × ℚ) → List (Nat × Nat × ℚ)
  | [] => [s]
  | t :: rest =>
    if s.2.2 ≤ t.2.2 then t :: insertSavingDesc s rest else s :: t :: rest

/-- Stable descending sort by saving, the effect of
`savings.sort((a, b) => b.saving - a.saving)`. -/
def sortSavingsDesc (l : List (Nat × Nat × ℚ)) : List (Nat × Nat × ℚ) :=
  l.foldr insertSavingDesc []

/-- First-match position search over the route records, the model of
`routes.find(...)` followed by `routes.indexOf(...)`. -/
def findRecIdx (p : SRec → Bool) : List SRec → Option Nat
  | [] => none
  | r :: rest => if p r then some 0 else (findRecIdx p rest).map Nat.succ

/-- The merge `for (const saving of savings)` loop of
`savingsAlgorithmVRP`: stop as soon as at most `numVehicles` routes
remain; otherwise look for a route ending at `i` and a distinct route
starting at `j`, and when their combined load fits, splice both out
(larger position first) and push the concatenation. -/
def savingsMergeLoop (cap : ℚ) (numVehicles : Nat) :
    List (Nat × Nat × ℚ) → List SRec → List SRec
  | [], routes => routes
  | (i, j, _) :: rest, routes =>
    if routes.length ≤ numVehicles then routes
    else
      match findRecIdx (fun r => decide (r.rend = i)) routes,
            findRecIdx (fun r => decide (r.rstart = j)) routes with
      | some a, some b =>
        if a ≠ b then
          let rI := routes.getD a (SRec.mk [] 0 0 0)
          let rJ := routes.getD b (SRec.mk [] 0 0 0)
          if rI.load + rJ.load ≤ cap then
            let merged := SRec.mk (rI.route.dropLast ++ rJ.route.drop 1)
              (rI.load + rJ.load) rI.rstart rJ.rend
            savingsMergeLoop cap numVehicles rest
              (((routes.eraseIdx (max a b)).eraseIdx (min a b)) ++ [merged])
          else savingsMergeLoop cap numVehicles rest routes
        else savingsMergeLoop cap numVehicles rest routes
      | _, _ => savingsMergeLoop cap numVehicles rest routes

/-- The initial single-customer route records `[0, idx+1, 0]`. -/
def savingsInit (demands : List ℚ) : List SRec :=
  (List.range demands.length).map fun idx =>
    SRec.mk [0, idx + 1, 0] (demands.getD idx 0) (idx + 1) (idx + 1)

/-- `savingsAlgorithmVRP` from `main.js`. -/
def savingsAlgorithmVRP (dm : Nat → Nat → ℚ) (demands : List ℚ) (cap : ℚ)
    (numVehicles : Nat) : List (List Nat) :=
  (savingsMergeLoop cap numVehicles
      (sortSavingsDesc (savingsPairs dm demands.length))
      (savingsInit demands)).map SRec.route

/-!
2-Opt (`twoOptImprovement` in `main.js`).  One pass is the nested
`for` loops over `(i, j)` with `1 ≤ i < route.length - 2` and
`i < j < route.length - 1`; the outer `while (improved)` loop is
written with fuel, and the top-level function runs it with fuel
`route.permutations.length + 1`, which is proved sufficient (each
improving pass strictly decreases the best distance over the finite
set of permutations of the route).
-/

/-- The candidate route of one 2-Opt move: reverse the segment from
position `i` to position `j` inclusive
(`route.slice(0,i) ++ route.slice(i,j+1).reverse() ++ route.slice(j+1)`). -/
def reverseSegment (route : List Nat) (i j : Nat) : List Nat :=
  route.take i ++ ((route.drop i).take (j + 1 - i)).reverse ++ route.drop (j + 1)

/-- The `(i, j)` iteration space of one 2-Opt pass, in source order. -/
def twoOptPairs (len : Nat) : List (Nat × Nat) :=
  (List.range' 1 (len - 3)).flatMap fun i =>
    (List.range' (i + 1) (len - 2 - i)).map fun j => (i, j)

/-- One pass of the `while (improved)` loop: fold over all moves,
adopting a candidate exactly when its distance is strictly below the
current best; the Bool records `improved`. -/
def twoOptPass (dm : Nat → Nat → ℚ) (route : List Nat) (bestD : ℚ) :
    List Nat × ℚ × Bool :=
  (twoOptPairs route.length).foldl
    (fun st p =>
      let newRoute := reverseSegment route p.1 p.2
      let newD := calculateRouteDistance dm newRoute
      if newD < st.2.1 then (newRoute, newD, true) else st)
    (route, bestD, false)

/-- The `while (improved)` loop with fuel: after a pass, either
continue from the improved route (`route = bestRoute`) or return the
best route; `none` when the fuel is exhausted before convergence. -/
def twoOptLoop (dm : Nat → Nat → ℚ) : Nat → List Nat → ℚ → Option (List Nat)
  | 0, _, _ => none
  | f + 1, route, bestD =>
    let st := twoOptPass dm route bestD
    if st.2.2 then twoOptLoop dm f st.1 st.2.1 else some st.1

/-- `twoOptImprovement` from `main.js`, run with provably sufficient
fuel (the fallback to the input route is never taken). -/
def twoOptImprovement (dm : Nat → Nat → ℚ) (route : List Nat) : List Nat :=
  (twoOptLoop dm (route.permutations.length + 1) route
      (calculateRouteDistance dm route)).getD route

/-!
`solveVRP` (`main.js`): validation gate, algorithm-selection gate, then
the selected constructors, the optional 2-Opt pipe, and evaluation.
Map drawing, markers and the results tab are browser concerns outside
the model.
-/

/-- The observable outcome of one `solveVRP` call. -/
inductive SolveOutcome where
  | aborted (v : ValidationOutcome)
  | noAlgorithmSelected
  | diverged
  | solved (results : List Solution)
deriving DecidableEq

/-- Does a `solveVRP` outcome carry constructed solutions? -/
def producedSolution : SolveOutcome → Bool
  | SolveOutcome.solved _ => true
  | _ => false

/-- `solveVRP` from `main.js`: return early when `validateProblem`
returned `false` (its alert already shown), then when no heuristic is
selected; otherwise run Nearest Neighbor and/or Savings, optionally
pipe every route through 2-Opt, and evaluate with color indices
assigned in execution order.  `diverged` marks the Nearest-Neighbor
fuel running out, i.e. the source call never returning. -/
def solveVRP (dm tm : Nat → Nat → ℚ) (fuelConsumption : Option ℚ)
    (demands : List ℚ) (numVehicles : Nat) (cap : ℚ) (hasDepot : Bool)
    (useNN useSavings use2Opt : Bool) (nnFuel : Nat) : SolveOutcome :=
  if validateProblem demands numVehicles cap hasDepot ≠ ValidationOutcome.ok then
    SolveOutcome.aborted (validateProblem demands numVehicles cap hasDepot)
  else if useNN = false ∧ useSavings = false then
    SolveOutcome.noAlgorithmSelected
  else
    match (if useNN then
            (nearestNeighborVRP dm demands cap numVehicles nnFuel).map fun rs =>
              let rs2 := if use2Opt then rs.map (twoOptImprovement dm) else rs
              [evaluateSolution dm tm fuelConsumption rs2
                ("Vecino Más Cercano" ++ (if use2Opt then " + 2-Opt" else "")) 0]
          else some []) with
    | none => SolveOutcome.diverged
    | some nnResults =>
      let savingsResults :=
        if useSavings then
          let rs := savingsAlgorithmVRP dm demands cap numVehicles
          let rs2 := if use2Opt then rs.map (twoOptImprovement dm) else rs
          [evaluateSolution dm tm fuelConsumption rs2
            ("Algoritmo de Ahorros" ++ (if use2Opt then " + 2-Opt" else ""))
            (if useNN then 1 else 0)]
        else []
      SolveOutcome.solved (nnResults ++ savingsResults)

/-- A simple complete distance matrix used for concrete instances. -/
def dmEx : Nat → Nat → ℚ := fun i j => if i = j then 0 else 1

/-!
Generic list lemmas used by several claim proofs.
-/

/-- A `+`-accumulating `foldl` is the initial value plus the mapped sum. -/
lemma foldl_add_eq_add_sum {α : Type _} (f : α → ℚ) :
    ∀ (l : List α) (a : ℚ),
      List.foldl (fun acc r => acc + f r) a l = a + (l.map f).sum := by
  intro l
  induction l with
  | nil => intro a; simp
  | cons x t ih => intro a; simp only [List.foldl, List.map, List.sum_cons, ih]; ring

/-- Removing the element at a valid position is a permutation step. -/
lemma perm_get_cons_eraseIdx {α : Type _} :
    ∀ (l : List α) (i : Nat) (h : i < l.length),
      l.Perm (l.get ⟨i, h⟩ :: l.eraseIdx i) := by
  intro l
  induction l with
  | nil => intro i h; simp at h
  | cons x t ih =>
    intro i h
    cases i with
    | zero => simp [List.eraseIdx]
    | succ n =>
      have hn : n < t.length := by simpa using h
      have h1 : (x :: t).Perm (x :: (t.get ⟨n, hn⟩ :: t.eraseIdx n)) :=
        List.Perm.cons x (ih n hn)
      have h2 : (x :: t.get ⟨n, hn⟩ :: t.eraseIdx n).Perm
          (t.get ⟨n, hn⟩ :: x :: t.eraseIdx n) := List.Perm.swap _ _ _
      simpa [List.eraseIdx] using h1.trans h2

/-- `countP` is strictly monotone when the weaker predicate has a
witness the stronger one misses. -/
lemma countP_lt_countP_of_witness {α : Type _} (p q : α → Bool) :
    ∀ (l : List α), (∀ x ∈ l, p x = true → q x = true) →
      ∀ a ∈ l, q a = true → p a = false →
        List.countP p l < List.countP q l := by
  intro l
  induction l with
  | nil => intro _ a ha; simp at ha
  | cons x t ih =>
    intro hmono a ha hq hp
    have hmt : ∀ y ∈ t, p y = true → q y = true := by
      intro y hy
      exact hmono y (List.mem_cons_of_mem _ hy)
    rcases List.mem_cons.mp ha with rfl | hat
    · have h1 : List.countP p t ≤ List.countP q t := List.countP_mono_left hmt
      simp only [List.countP_cons, hp, hq, Bool.false_eq_true, eq_self_iff_true,
        if_false, if_true]
      omega
    · have h1 := ih hmt a hat hq hp
      simp only [List.countP_cons]
      by_cases hpx : p x = true
      · have hqx := hmono x (List.mem_cons_self _ _) hpx
        simp only [hpx, hqx, if_true]
        omega
      · by_cases hqx : q x = true <;>
          simp only [hpx, hqx, if_true, if_false, Bool.false_eq_true] <;> omega

/-- Count of an element after joining vs the count of member lists
containing it: a flattened count of one means exactly one member list
contains the element. -/
lemma countP_mem_eq_one_of_count_flatten_eq_one {L : List (List Nat)} {c : Nat}
    (h : List.count c L.flatten = 1) :
    List.countP (fun r => decide (c ∈ r)) L = 1 := by
  induction L with
  | nil => simp at h
  | cons r t ih =>
    rw [List.flatten_cons, List.count_append] at h
    by_cases hr : c ∈ r
    · have hpos : 0 < List.count c r := List.count_pos_iff.mpr hr
      have hz : List.count c t.flatten = 0 := by omega
      have hzz : ∀ l ∈ t, c ∉ l := by
        intro l hl hcl
        have : c ∈ t.flatten := List.mem_flatten.mpr ⟨l, hl, hcl⟩
        exact absurd (List.count_pos_iff.mpr this) (by omega)
      have hct : List.countP (fun r => decide (c ∈ r)) t = 0 :=
        List.countP_eq_zero.mpr (by intro l hl; simpa using hzz l hl)
      simp [List.countP_cons, hr, hct]
    · have hz : List.count c r = 0 := List.count_eq_zero_of_not_mem hr
      have h1 : List.count c t.flatten = 1 := by omega
      simp [List.countP_cons, hr, ih h1]

/-!
C1, C6, C7, C3: validation gate, evaluator fields, fuel formula,
divergence of the trailing Nearest-Neighbor loop.
-/

/-- C1 (amended): when total demand exceeds `numVehicles × vehicleCapacity`
(with a depot and at least one customer present), `validateProblem`
surfaces the demand warning and returns `false`, so `solveVRP` aborts
before running any constructor; no solution is produced. -/
theorem solveVRP_demand_warning_aborts
    (dm tm : Nat → Nat → ℚ) (fuelConsumption : Option ℚ) (demands : List ℚ)
    (numVehicles : Nat) (cap : ℚ) (useNN useSavings use2Opt : Bool) (nnFuel : Nat)
    (hdemand : (numVehicles : ℚ) * cap < demands.sum)
    (hdest : demands ≠ []) :
    validateProblem demands numVehicles cap true = ValidationOutcome.warnDemand ∧
    solveVRP dm tm fuelConsumption demands numVehicles cap true
        useNN useSavings use2Opt nnFuel
      = SolveOutcome.aborted ValidationOutcome.warnDemand := by
  have hv : validateProblem demands numVehicles cap true = ValidationOutcome.warnDemand := by
    simp [validateProblem, hdemand]
  exact ⟨hv, by simp [solveVRP, hv]⟩

/-- C1 witness: a concrete infeasible-demand problem on which the
abort branch is taken. -/
theorem solveVRP_demand_warning_aborts_witness :
    (((1 : Nat) : ℚ) * 5 < List.sum [(10 : ℚ)] ∧ [(10 : ℚ)] ≠ []) ∧
    (validateProblem [(10 : ℚ)] 1 5 true = ValidationOutcome.warnDemand ∧
     solveVRP dmEx dmEx (some 8) [(10 : ℚ)] 1 5 true true true false 3
       = SolveOutcome.aborted ValidationOutcome.warnDemand) :=
  ⟨⟨by norm_num, by decide⟩,
   solveVRP_demand_warning_aborts dmEx dmEx (some 8) [(10 : ℚ)] 1 5 true true false 3
     (by norm_num) (by decide)⟩

/-- C1 counterexample: on that same problem the claim's asserted
behavior — `solveVRP` still producing a (possibly partial) solution —
fails: no solution is produced. -/
theorem solveVRP_demand_warning_cex :
    ((1 : ℚ) * 5 < 10) ∧
    producedSolution
        (solveVRP dmEx dmEx (some 8) [(10 : ℚ)] 1 5 true true true false 3) = false := by
  exact ⟨by norm_num, by decide⟩

/-- C6 (amended): `evaluateSolution`'s distance field is the sum of
`calculateRouteDistance` over the routes, and its vehicles field is
the total number of routes in the list (empty routes included). -/
theorem evaluateSolution_distance_and_vehicles
    (dm tm : Nat → Nat → ℚ) (fuelConsumption : Option ℚ)
    (routes : List (List Nat)) (name : String) (colorIndex : Nat) :
    (evaluateSolution dm tm fuelConsumption routes name colorIndex).distance
        = (routes.map (calculateRouteDistance dm)).sum ∧
    (evaluateSolution dm tm fuelConsumption routes name colorIndex).vehicles
        = routes.length := by
  refine ⟨?_, rfl⟩
  show routes.foldl (fun acc r => acc + calculateRouteDistance dm r) 0 = _
  rw [foldl_add_eq_add_sum]
  ring

/-- The spec's notion of a Solution's vehicle count — the number of
routes containing at least one customer — stated from the spec's words
for comparison against `evaluateSolution`. -/
def specNonEmptyRouteCount (routes : List (List Nat)) : Nat :=
  (routes.filter (fun r => !(r.filter (fun x => decide (x ≠ 0))).isEmpty)).length

/-- C6 counterexample: on a list holding one empty (depot-to-depot)
route, `evaluateSolution` reports 1 vehicle while the number of
non-empty routes is 0. -/
theorem evaluateSolution_vehicles_cex :
    (evaluateSolution dmEx dmEx (some 8) [[0, 0]] "Vecino Más Cercano" 0).vehicles = 1 ∧
    specNonEmptyRouteCount [[0, 0]] = 0 ∧ (1 : Nat) ≠ 0 := by
  exact ⟨rfl, rfl, by decide⟩

/-- C7 (amended): with a present consumption rate the fuel of a route
is `distance / 100 * rate` (hence 0 when the rate is 0), but with an
absent rate the result is NaN — the `undefined` global propagates —
not 0. -/
theorem calculateRouteEnergy_spec (dm : Nat → Nat → ℚ) (route : List Nat) (f : ℚ) :
    calculateRouteEnergy dm (some f) route
        = JSNum.num (calculateRouteDistance dm route / 100 * f) ∧
    calculateRouteEnergy dm (some 0) route = JSNum.num 0 ∧
    calculateRouteEnergy dm none route = JSNum.nan := by
  refine ⟨rfl, ?_, rfl⟩
  simp [calculateRouteEnergy]

/-- C7 counterexample: with the consumption rate absent the result is
NaN, which is not the number 0 the claim asserts. -/
theorem calculateRouteEnergy_absent_cex :
    calculateRouteEnergy dmEx none [0, 1, 0] = JSNum.nan ∧
    JSNum.nan ≠ JSNum.num 0 := by
  exact ⟨rfl, by decide⟩

/-- C3: the trailing `while` loop of `nearestNeighborVRP` makes no
progress once every remaining customer's demand exceeds the capacity
while fewer routes than vehicles were produced: on one customer of
demand 10 with capacity 5 and one vehicle, the source loop spins
forever — modelled by the fuel running out for every fuel value. -/
theorem nearestNeighbor_diverges_on_oversized_demand :
    ∀ fuel : Nat, nearestNeighborVRP dmEx [(10 : ℚ)] 5 1 fuel = none := by
  intro fuel
  show nnSecondLoop dmEx [(10 : ℚ)] 5 1 fuel [1] [] = none
  induction fuel with
  | zero => rfl
  | succ f ih =>
    have hstep : nnSecondLoop dmEx [(10 : ℚ)] 5 1 (f + 1) [1] []
        = nnSecondLoop dmEx [(10 : ℚ)] 5 1 f [1] [] := rfl
    rw [hstep]
    exact ih

/-!
Savings-loop infrastructure: the shape invariant of route records, the
permutation bookkeeping of splicing two records out and pushing their
merge, and the resulting count/length/load preservation facts.
-/

/-- The shape invariant of every reachable savings route record: the
node list is `[0] ++ cs ++ [0]` for a nonempty customer list with no
depot index inside, and the load is the demand sum of `cs`. -/
def GoodSRec (demands : List ℚ) (r : SRec) : Prop :=
  ∃ cs : List Nat, cs ≠ [] ∧ r.route = 0 :: cs ++ [0] ∧ (∀ x ∈ cs, x ≠ 0) ∧
    r.load = (cs.map (demandOf demands)).sum

/-- A found first-match position is in bounds. -/
lemma findRecIdx_lt (p : SRec → Bool) :
    ∀ (l : List SRec) (k : Nat), findRecIdx p l = some k → k < l.length := by
  intro l
  induction l with
  | nil => intro k h; simp [findRecIdx] at h
  | cons r t ih =>
    intro k h
    simp only [List.length_cons]
    by_cases hp : p r = true
    · simp [findRecIdx, hp] at h
      omega
    · simp [findRecIdx, hp, Option.map_eq_some'] at h
      obtain ⟨a, ha, rfl⟩ := h
      have := ih a ha
      omega

/-- Erasing at a position below the given bound keeps length-1. -/
lemma length_eraseIdx_of_lt {α : Type _} (l : List α) (i : Nat) (h : i < l.length) :
    (l.eraseIdx i).length = l.length - 1 := by
  rw [List.length_eraseIdx]
  simp [h]

/-- Splicing out two distinct positions (larger first) is, up to
permutation, removing the two elements at those positions. -/
lemma perm_two_eraseIdx {α : Type _} (l : List α) (a b : Nat)
    (ha : a < l.length) (hb : b < l.length) (hab : a ≠ b) :
    l.Perm (l[a] :: l[b] :: ((l.eraseIdx (max a b)).eraseIdx (min a b))) := by
  rcases Nat.lt_or_ge a b with hlt | hge
  · have hmax : max a b = b := Nat.max_eq_right (Nat.le_of_lt hlt)
    have hmin : min a b = a := Nat.min_eq_left (Nat.le_of_lt hlt)
    rw [hmax, hmin]
    have ha' : a < (l.eraseIdx b).length := by
      rw [length_eraseIdx_of_lt l b hb]; omega
    have hget : (l.eraseIdx b).get ⟨a, ha'⟩ = l[a] := by
      have h1 := List.getElem_eraseIdx l b a ha'
      rw [dif_pos hlt] at h1
      simpa using h1
    have h1 : l.Perm (l.get ⟨b, hb⟩ :: l.eraseIdx b) := perm_get_cons_eraseIdx l b hb
    have h2 : (l.eraseIdx b).Perm
        ((l.eraseIdx b).get ⟨a, ha'⟩ :: (l.eraseIdx b).eraseIdx a) :=
      perm_get_cons_eraseIdx _ a ha'
    rw [hget] at h2
    have h3 : l.Perm (l.get ⟨b, hb⟩ :: l[a] :: (l.eraseIdx b).eraseIdx a) :=
      h1.trans (List.Perm.cons _ h2)
    have h4 : (l.get ⟨b, hb⟩ :: l[a] :: (l.eraseIdx b).eraseIdx a).Perm
        (l[a] :: l.get ⟨b, hb⟩ :: (l.eraseIdx b).eraseIdx a) := List.Perm.swap _ _ _
    simpa using h3.trans h4
  · have hlt : b < a := Nat.lt_of_le_of_ne hge (Ne.symm hab)
    have hmax : max a b = a := Nat.max_eq_left (Nat.le_of_lt hlt)
    have hmin : min a b = b := Nat.min_eq_right (Nat.le_of_lt hlt)
    rw [hmax, hmin]
    have hb' : b < (l.eraseIdx a).length := by
      rw [length_eraseIdx_of_lt l a ha]; omega
    have hget : (l.eraseIdx a).get ⟨b, hb'⟩ = l[b] := by
      have h1 := List.getElem_eraseIdx l a b hb'
      rw [dif_pos hlt] at h1
      simpa using h1
    have h1 : l.Perm (l.get ⟨a, ha⟩ :: l.eraseIdx a) := perm_get_cons_eraseIdx l a ha
    have h2 : (l.eraseIdx a).Perm
        ((l.eraseIdx a).get ⟨b, hb'⟩ :: (l.eraseIdx a).eraseIdx b) :=
      perm_get_cons_eraseIdx _ b hb'
    rw [hget] at h2
    have h3 : l.Perm (l.get ⟨a, ha⟩ :: l[b] :: (l.eraseIdx a).eraseIdx b) :=
      h1.trans (List.Perm.cons _ h2)
    simpa using h3

/-- Count of a customer in the flattened node lists of a route-record
list after one merge step: unchanged for every non-depot index. -/
lemma merged_count_eq (routes : List SRec) (a b : Nat)
    (ha : a < routes.length) (hb : b < routes.length) (hab : a ≠ b)
    (merged : SRec)
    (hm : merged.route = routes[a].route.dropLast ++ routes[b].route.drop 1)
    (csI csJ : List Nat)
    (hga : routes[a].route = 0 :: csI ++ [0])
    (hgb : routes[b].route = 0 :: csJ ++ [0])
    (x : Nat) (hx : x ≠ 0) :
    List.count x (((((routes.eraseIdx (max a b)).eraseIdx (min a b))) ++ [merged]).map
        SRec.route).flatten
      = List.count x ((routes.map SRec.route).flatten) := by
  have hperm := perm_two_eraseIdx routes a b ha hb hab
  have hpermFl : ((routes.map SRec.route).flatten).Perm
      (((routes[a] :: routes[b] :: ((routes.eraseIdx (max a b)).eraseIdx (min a b))).map
        SRec.route).flatten) :=
    (hperm.map SRec.route).flatten
  rw [hpermFl.count_eq x]
  have hxb : ∀ y : Nat, (y :: [] : List Nat) = [y] := fun y => rfl
  have hcount0 : ∀ (cs : List Nat), List.count x (0 :: cs ++ [0]) = List.count x cs := by
    intro cs
    have h0 : ((0 : Nat) == x) = false := by
      simp [beq_iff_eq]
      omega
    simp [List.count_cons, List.count_append, h0]
  have hdropLast : routes[a].route.dropLast = 0 :: csI := by
    rw [hga]
    have : (0 : Nat) :: csI ++ [0] = ((0 : Nat) :: csI) ++ [0] := by simp
    rw [this, List.dropLast_concat]
  have hdrop1 : routes[b].route.drop 1 = csJ ++ [0] := by
    rw [hgb]
    rfl
  have hmerged : List.count x merged.route = List.count x csI + List.count x csJ := by
    rw [hm, hdropLast, hdrop1]
    have h0 : ((0 : Nat) == x) = false := by
      simp [beq_iff_eq]
      omega
    simp [List.count_append, List.count_cons, h0]
  simp only [List.map_append, List.map_cons, List.flatten_append, List.flatten_cons,
    List.count_append]
  have hra : List.count x routes[a].route = List.count x csI := by rw [hga]; exact hcount0 csI
  have hrb : List.count x routes[b].route = List.count x csJ := by rw [hgb]; exact hcount0 csJ
  simp only [List.map_nil, List.flatten_nil, List.count_nil]
  omega

/-- The dropLast of a depot-framed route keeps the leading depot. -/
lemma dropLast_shape (cs : List Nat) : ((0 : Nat) :: cs ++ [0]).dropLast = 0 :: cs := by
  have h : (0 : Nat) :: cs ++ [0] = ((0 : Nat) :: cs) ++ [0] := by simp
  rw [h, List.dropLast_concat]

/-- Dropping the head of a depot-framed route keeps the trailing depot. -/
lemma drop1_shape (cs : List Nat) : ((0 : Nat) :: cs ++ [0]).drop 1 = cs ++ [0] := rfl

/-- All the savings-merge-loop invariants at once: shapes are
preserved, per-customer counts over the flattened node lists are
preserved, the record count never grows, never falls below the vehicle
budget it started at or above, is returned unchanged when already
within budget, and capacity bounds on loads are preserved. -/
lemma savingsMergeLoop_facts (demands : List ℚ) (cap : ℚ) (nv : Nat) :
    ∀ (s : List (Nat × Nat × ℚ)) (routes : List SRec),
      (∀ r ∈ routes, GoodSRec demands r) →
      (∀ r ∈ savingsMergeLoop cap nv s routes, GoodSRec demands r) ∧
      (∀ x : Nat, x ≠ 0 →
        List.count x (((savingsMergeLoop cap nv s routes).map SRec.route).flatten)
          = List.count x ((routes.map SRec.route).flatten)) ∧
      (savingsMergeLoop cap nv s routes).length ≤ routes.length ∧
      (nv ≤ routes.length → nv ≤ (savingsMergeLoop cap nv s routes).length) ∧
      (routes.length ≤ nv → savingsMergeLoop cap nv s routes = routes) ∧
      ((∀ r ∈ routes, r.load ≤ cap) →
        ∀ r ∈ savingsMergeLoop cap nv s routes, r.load ≤ cap) := by
  intro s
  induction s with
  | nil =>
    intro routes hG
    have heq : savingsMergeLoop cap nv [] routes = routes := rfl
    rw [heq]
    exact ⟨hG, fun _ _ => rfl, le_refl _, fun h => h, fun _ => rfl, fun h => h⟩
  | cons hd tl ih =>
    obtain ⟨i, j, sv⟩ := hd
    intro routes hG
    by_cases hle : routes.length ≤ nv
    · have heq : savingsMergeLoop cap nv ((i, j, sv) :: tl) routes = routes := by
        simp [savingsMergeLoop, hle]
      rw [heq]
      exact ⟨hG, fun _ _ => rfl, le_refl _, fun h => h, fun _ => rfl, fun h => h⟩
    · cases hfa : findRecIdx (fun r => decide (r.rend = i)) routes with
      | none =>
        have heq : savingsMergeLoop cap nv ((i, j, sv) :: tl) routes
            = savingsMergeLoop cap nv tl routes := by
          simp [savingsMergeLoop, hle, hfa]
        rw [heq]
        obtain ⟨h1, h2, h3, h4, h5, h6⟩ := ih routes hG
        exact ⟨h1, h2, h3, h4, fun h => absurd h hle, h6⟩
      | some a =>
        cases hfb : findRecIdx (fun r => decide (r.rstart = j)) routes with
        | none =>
          have heq : savingsMergeLoop cap nv ((i, j, sv) :: tl) routes
              = savingsMergeLoop cap nv tl routes := by
            simp [savingsMergeLoop, hle, hfa, hfb]
          rw [heq]
          obtain ⟨h1, h2, h3, h4, h5, h6⟩ := ih routes hG
          exact ⟨h1, h2, h3, h4, fun h => absurd h hle, h6⟩
        | some b =>
          by_cases hab : a = b
          · have heq : savingsMergeLoop cap nv ((i, j, sv) :: tl) routes
                = savingsMergeLoop cap nv tl routes := by
              simp [savingsMergeLoop, hle, hfa, hfb, hab]
            rw [heq]
            obtain ⟨h1, h2, h3, h4, h5, h6⟩ := ih routes hG
            exact ⟨h1, h2, h3, h4, fun h => absurd h hle, h6⟩
          · have ha := findRecIdx_lt _ routes a hfa
            have hb := findRecIdx_lt _ routes b hfb
            have hrIa : routes.getD a (SRec.mk [] 0 0 0) = routes[a] :=
              List.getD_eq_getElem routes _ ha
            have hrJb : routes.getD b (SRec.mk [] 0 0 0) = routes[b] :=
              List.getD_eq_getElem routes _ hb
            by_cases hload : routes[a].load + routes[b].load ≤ cap
            · obtain ⟨csI, hcsIne, hcsIroute, hcsInz, hcsIload⟩ :=
                hG routes[a] (List.getElem_mem ha)
              obtain ⟨csJ, hcsJne, hcsJroute, hcsJnz, hcsJload⟩ :=
                hG routes[b] (List.getElem_mem hb)
              have heq : savingsMergeLoop cap nv ((i, j, sv) :: tl) routes
                  = savingsMergeLoop cap nv tl
                      (((routes.eraseIdx (max a b)).eraseIdx (min a b)) ++
                        [SRec.mk (routes[a].route.dropLast ++ routes[b].route.drop 1)
                          (routes[a].load + routes[b].load)
                          routes[a].rstart routes[b].rend]) := by
                simp [savingsMergeLoop, hle, hfa, hfb, hab, ha, hb, hrIa, hrJb, hload]
              have hmax : max a b < routes.length := Nat.max_lt.mpr ⟨ha, hb⟩
              have hminmax : min a b < max a b := min_lt_max.mpr hab
              have hminE : min a b < (routes.eraseIdx (max a b)).length := by
                rw [length_eraseIdx_of_lt _ _ hmax]
                omega
              have hmg : GoodSRec demands
                  (SRec.mk (routes[a].route.dropLast ++ routes[b].route.drop 1)
                    (routes[a].load + routes[b].load) routes[a].rstart routes[b].rend) := by
                refine ⟨csI ++ csJ, by simp [hcsIne], ?_, ?_, ?_⟩
                · show routes[a].route.dropLast ++ routes[b].route.drop 1 = _
                  rw [hcsIroute, hcsJroute, dropLast_shape, drop1_shape]
                  simp
                · intro x hx
                  rcases List.mem_append.mp hx with h | h
                  · exact hcsInz x h
                  · exact hcsJnz x h
                · show routes[a].load + routes[b].load = _
                  rw [hcsIload, hcsJload]
                  simp [List.sum_append]
              have hsubE : ∀ r ∈ (routes.eraseIdx (max a b)).eraseIdx (min a b),
                  r ∈ routes := by
                intro r hr
                exact (List.eraseIdx_sublist routes (max a b)).subset
                  ((List.eraseIdx_sublist _ (min a b)).subset hr)
              have hGnew : ∀ r ∈ ((routes.eraseIdx (max a b)).eraseIdx (min a b)) ++
                  [SRec.mk (routes[a].route.dropLast ++ routes[b].route.drop 1)
                    (routes[a].load + routes[b].load) routes[a].rstart routes[b].rend],
                  GoodSRec demands r := by
                intro r hr
                rcases List.mem_append.mp hr with h | h
                · exact hG r (hsubE r h)
                · rw [List.mem_singleton.mp h]
                  exact hmg
              have hlenE : (((routes.eraseIdx (max a b)).eraseIdx (min a b)) ++
                  [SRec.mk (routes[a].route.dropLast ++ routes[b].route.drop 1)
                    (routes[a].load + routes[b].load) routes[a].rstart
                    routes[b].rend]).length = routes.length - 1 := by
                rw [List.length_append, length_eraseIdx_of_lt _ _ hminE,
                  length_eraseIdx_of_lt _ _ hmax]
                simp
                omega
              rw [heq]
              obtain ⟨h1, h2, h3, h4, h5, h6⟩ := ih _ hGnew
              refine ⟨h1, ?_, ?_, ?_, fun h => absurd h hle, ?_⟩
              · intro x hx
                rw [h2 x hx]
                exact merged_count_eq routes a b ha hb hab _ rfl csI csJ
                  hcsIroute hcsJroute x hx
              · rw [hlenE] at h3
                omega
              · intro hnv
                have := h4 (by rw [hlenE]; omega)
                omega
              · intro hL
                apply h6
                intro r hr
                rcases List.mem_append.mp hr with h | h
                · exact hL r (hsubE r h)
                · rw [List.mem_singleton.mp h]
                  exact hload
            · have heq : savingsMergeLoop cap nv ((i, j, sv) :: tl) routes
                  = savingsMergeLoop cap nv tl routes := by
                simp [savingsMergeLoop, hle, hfa, hfb, hab, ha, hb, hrIa, hrJb, hload]
              rw [heq]
              obtain ⟨h1, h2, h3, h4, h5, h6⟩ := ih routes hG
              exact ⟨h1, h2, h3, h4, fun h => absurd h hle, h6⟩

/-- The initial single-customer records satisfy the shape invariant. -/
lemma savingsInit_good (demands : List ℚ) :
    ∀ r ∈ savingsInit demands, GoodSRec demands r := by
  intro r hr
  simp only [savingsInit, List.mem_map, List.mem_range] at hr
  obtain ⟨idx, _, rfl⟩ := hr
  refine ⟨[idx + 1], by simp, rfl, ?_, ?_⟩
  · intro x hx
    simp only [List.mem_singleton] at hx
    omega
  · show demands.getD idx 0 = _
    simp [demandOf]

/-- One record per customer initially. -/
lemma savingsInit_length (demands : List ℚ) :
    (savingsInit demands).length = demands.length := by
  simp [savingsInit]

/-- Count of a non-depot index in the initial node lists: one per
customer index in range, as in `[1, ..., C]`. -/
lemma savingsInit_count (demands : List ℚ) :
    ∀ x : Nat, x ≠ 0 →
      List.count x (((savingsInit demands).map SRec.route).flatten)
        = List.count x (List.range' 1 demands.length) := by
  have key : ∀ (n : Nat) (x : Nat), x ≠ 0 →
      List.count x (((List.range n).map (fun idx => [0, idx + 1, 0])).flatten)
        = List.count x (List.range' 1 n) := by
    intro n
    induction n with
    | zero => intro x _; simp
    | succ m ih =>
      intro x hx
      rw [List.range_succ, List.map_append, List.flatten_append, List.count_append,
        ih x hx, List.range'_concat, List.count_append]
      have h0 : ((0 : Nat) == x) = false := by
        simp [beq_iff_eq]
        omega
      have h1 : 1 + 1 * m = m + 1 := by omega
      rw [h1]
      simp [List.count_cons, List.count_singleton, h0]
  intro x hx
  have hmap : (savingsInit demands).map SRec.route
      = (List.range demands.length).map (fun idx => [0, idx + 1, 0]) := by
    simp [savingsInit, List.map_map]
  rw [hmap]
  exact key demands.length x hx

/-- Membership in `[1, ..., C]`. -/
lemma mem_range'_one {c n : Nat} : c ∈ List.range' 1 n ↔ 1 ≤ c ∧ c ≤ n := by
  rw [List.mem_range']
  constructor
  · rintro ⟨i, hi, rfl⟩
    omega
  · intro ⟨h1, h2⟩
    exact ⟨c - 1, by omega, by omega⟩

/-- Count of an index in `[1, ..., C]` is one inside the range. -/
lemma count_range'_one_eq_one {c n : Nat} (h1 : 1 ≤ c) (h2 : c ≤ n) :
    List.count c (List.range' 1 n) = 1 :=
  List.count_eq_one_of_mem (List.nodup_range' 1 n) (mem_range'_one.mpr ⟨h1, h2⟩)

/-- Count of any index in `[1, ..., C]` is at most one. -/
lemma count_range'_one_le_one (c n : Nat) :
    List.count c (List.range' 1 n) ≤ 1 := by
  by_cases h : c ∈ List.range' 1 n
  · rw [List.count_eq_one_of_mem (List.nodup_range' 1 n) h]
  · rw [List.count_eq_zero_of_not_mem h]
    omega

/-- C5 (amended): Clarke-Wright returns at most one route per customer
and at least `min C numVehicles` routes — the merge loop stops as soon
as the route count is at or below `numVehicles`, but when no
capacity-feasible merge exists the final count can exceed
`numVehicles` (see the counterexample). -/
theorem savings_route_count_bounds (dm : Nat → Nat → ℚ) (demands : List ℚ)
    (cap : ℚ) (nv : Nat) :
    (savingsAlgorithmVRP dm demands cap nv).length ≤ demands.length ∧
    min demands.length nv ≤ (savingsAlgorithmVRP dm demands cap nv).length := by
  obtain ⟨_, _, h3, h4, h5, _⟩ := savingsMergeLoop_facts demands cap nv
    (sortSavingsDesc (savingsPairs dm demands.length)) (savingsInit demands)
    (savingsInit_good demands)
  have hlen := savingsInit_length demands
  have hunfold : (savingsAlgorithmVRP dm demands cap nv).length
      = (savingsMergeLoop cap nv (sortSavingsDesc (savingsPairs dm demands.length))
          (savingsInit demands)).length := by
    simp [savingsAlgorithmVRP]
  constructor
  · rw [hunfold]
    omega
  · rw [hunfold]
    rcases Nat.le_total demands.length nv with hc | hc
    · rw [h5 (by omega), hlen]
      exact Nat.min_le_left _ _
    · have := h4 (by omega)
      have hmin : min demands.length nv ≤ nv := Nat.min_le_right _ _
      omega

/-- C5 counterexample: two customers of demand 3, capacity 5, one
vehicle — the single merge is infeasible, so two routes are returned,
exceeding the vehicle count. -/
theorem savings_route_count_cex :
    ¬ ((savingsAlgorithmVRP dmEx [(3 : ℚ), 3] 5 1).length ≤ 1) := by
  decide

/-!
Nearest-Neighbor infrastructure: what a found candidate satisfies, and
the count/shape/load invariants of the inner builder and both vehicle
loops.
-/

/-- Count of a non-depot index in a depot-framed route. -/
lemma count_depot_framed (cs : List Nat) (x : Nat) (hx : x ≠ 0) :
    List.count x (0 :: cs ++ [0]) = List.count x cs := by
  have h0 : ((0 : Nat) == x) = false := by
    simp [beq_iff_eq]
    omega
  simp [List.count_cons, List.count_append, h0]

/-- The customers of a depot-framed route are its interior list. -/
lemma filter_depot_framed (cs : List Nat) (hnz : ∀ x ∈ cs, x ≠ 0) :
    (0 :: cs ++ [0]).filter (fun x => decide (x ≠ 0)) = cs := by
  have h1 : List.filter (fun x => decide (x ≠ 0)) cs = cs :=
    List.filter_eq_self.mpr (by intro a ha; simpa using hnz a ha)
  simp [List.filter_cons, List.filter_append, h1]
  exact hnz

/-- Decomposing `drop i` at a cons exposes the element at `i`. -/
lemma drop_eq_cons_facts (l : List Nat) (i : Nat) (c : Nat) (rest : List Nat)
    (h : l.drop i = c :: rest) :
    i < l.length ∧ l.getD i 0 = c ∧ l.drop (i + 1) = rest := by
  have hlen : (l.drop i).length = l.length - i := List.length_drop i l
  rw [h] at hlen
  have hi : i < l.length := by
    simp only [List.length_cons] at hlen
    omega
  refine ⟨hi, ?_, ?_⟩
  · have hlt : 0 < (l.drop i).length := by rw [h]; simp
    have h0 : (l.drop i).get ⟨0, hlt⟩ = l[i + 0] := List.getElem_drop l
    rw [List.getD_eq_getElem l 0 hi]
    have h2 : (l.drop i).get ⟨0, hlt⟩ = c := by
      simp only [List.get_eq_getElem]
      simp [h]
    rw [← h2, h0]
    simp
  · have h1 : l.drop (i + 1) = (l.drop i).drop 1 := by
      rw [List.drop_drop]
    rw [h1, h, List.drop_one]
    rfl

/-- Whatever position the candidate scan returns is in bounds and its
customer still fits the remaining capacity. -/
lemma findNearestAux_spec (dm : Nat → Nat → ℚ) (demands : List ℚ) (cap : ℚ)
    (pos : Nat) (load : ℚ) (unvisited : List Nat) :
    ∀ (l : List Nat) (i : Nat) (acc : Option (Nat × ℚ)),
      l = unvisited.drop i →
      (∀ k d, acc = some (k, d) →
        k < unvisited.length ∧ load + demandOf demands (unvisited.getD k 0) ≤ cap) →
      ∀ k d, findNearestAux dm demands cap pos load l i acc = some (k, d) →
        k < unvisited.length ∧ load + demandOf demands (unvisited.getD k 0) ≤ cap := by
  intro l
  induction l with
  | nil =>
    intro i acc _ hacc k d h
    exact hacc k d (by simpa [findNearestAux] using h)
  | cons c rest ih =>
    intro i acc hdrop hacc k d h
    obtain ⟨hi, hci, hrest⟩ := drop_eq_cons_facts unvisited i c rest hdrop.symm
    simp only [findNearestAux] at h
    split at h
    · refine ih (i + 1) _ hrest.symm ?_ k d h
      intro k' d' hk'
      have hkk : k' = i ∧ d' = dm pos c := by
        constructor <;> · injection hk' with h1; injection h1 <;> simp_all
      rename_i hcond
      have hfits : load + demandOf demands c ≤ cap := by
        have hb : decide (load + demandOf demands c ≤ cap) = true :=
          (Bool.and_eq_true _ _).mp hcond |>.2
        exact of_decide_eq_true hb
      rw [hkk.1, hci]
      exact ⟨hi, hfits⟩
    · exact ih (i + 1) acc hrest.symm hacc k d h

/-- The `findNearest` result: in bounds, and adding the chosen
customer's demand stays within capacity. -/
lemma findNearest_spec (dm : Nat → Nat → ℚ) (demands : List ℚ) (cap : ℚ)
    (pos : Nat) (load : ℚ) (unvisited : List Nat) :
    ∀ k, findNearest dm demands cap pos load unvisited = some k →
      k < unvisited.length ∧ load + demandOf demands (unvisited.getD k 0) ≤ cap := by
  intro k h
  simp only [findNearest, Option.map_eq_some'] at h
  obtain ⟨⟨k', d⟩, haux, hk⟩ := h
  simp only at hk
  subst hk
  exact findNearestAux_spec dm demands cap pos load unvisited unvisited 0 none
    (by simp) (by intro k d hkd; simp at hkd) k' d haux

/-- The builder moves customers from `unvisited` into the route:
counts are preserved. -/
lemma nnBuild_count (dm : Nat → Nat → ℚ) (demands : List ℚ) (cap : ℚ) :
    ∀ (n : Nat) (unvisited : List Nat) (pos : Nat) (load : ℚ) (x : Nat),
      List.count x (nnBuild dm demands cap n unvisited pos load).1 +
        List.count x (nnBuild dm demands cap n unvisited pos load).2
      = List.count x unvisited := by
  intro n
  induction n with
  | zero => intro unvisited pos load x; simp [nnBuild]
  | succ m ih =>
    intro unvisited pos load x
    cases hf : findNearest dm demands cap pos load unvisited with
    | none => simp [nnBuild, hf]
    | some i =>
      obtain ⟨hi, _⟩ := findNearest_spec dm demands cap pos load unvisited i hf
      have hgetD : unvisited.getD i 0 = unvisited[i] := List.getD_eq_getElem unvisited 0 hi
      have hperm := perm_get_cons_eraseIdx unvisited i hi
      have hcount := hperm.count_eq x
      have hget : unvisited.get ⟨i, hi⟩ = unvisited[i] := rfl
      rw [hget, List.count_cons] at hcount
      simp only [nnBuild, hf, hgetD]
      rw [List.count_cons]
      have hih := ih (unvisited.eraseIdx i) unvisited[i]
        (load + demandOf demands unvisited[i]) x
      omega

/-- Customers placed on the built route come from `unvisited`. -/
lemma nnBuild_mem (dm : Nat → Nat → ℚ) (demands : List ℚ) (cap : ℚ)
    (n : Nat) (unvisited : List Nat) (pos : Nat) (load : ℚ) (x : Nat)
    (hx : x ∈ (nnBuild dm demands cap n unvisited pos load).1) : x ∈ unvisited := by
  have hc := nnBuild_count dm demands cap n unvisited pos load x
  have h1 : 0 < List.count x (nnBuild dm demands cap n unvisited pos load).1 :=
    List.count_pos_iff.mpr hx
  exact List.count_pos_iff.mp (by omega)

/-- Customers left unvisited by the builder come from `unvisited`. -/
lemma nnBuild_rem_mem (dm : Nat → Nat → ℚ) (demands : List ℚ) (cap : ℚ)
    (n : Nat) (unvisited : List Nat) (pos : Nat) (load : ℚ) (x : Nat)
    (hx : x ∈ (nnBuild dm demands cap n unvisited pos load).2) : x ∈ unvisited := by
  have hc := nnBuild_count dm demands cap n unvisited pos load x
  have h1 : 0 < List.count x (nnBuild dm demands cap n unvisited pos load).2 :=
    List.count_pos_iff.mpr hx
  exact List.count_pos_iff.mp (by omega)

/-- The capacity guard of the candidate scan makes the built route's
demand fit on top of the starting load. -/
lemma nnBuild_load (dm : Nat → Nat → ℚ) (demands : List ℚ) (cap : ℚ) :
    ∀ (n : Nat) (unvisited : List Nat) (pos : Nat) (load : ℚ),
      (nnBuild dm demands cap n unvisited pos load).1 = [] ∨
      load + (((nnBuild dm demands cap n unvisited pos load).1.map
        (demandOf demands)).sum) ≤ cap := by
  intro n
  induction n with
  | zero => intro unvisited pos load; left; simp [nnBuild]
  | succ m ih =>
    intro unvisited pos load
    cases hf : findNearest dm demands cap pos load unvisited with
    | none => left; simp [nnBuild, hf]
    | some i =>
      right
      obtain ⟨hi, hfit⟩ := findNearest_spec dm demands cap pos load unvisited i hf
      have hr := ih (unvisited.eraseIdx i) (unvisited.getD i 0)
        (load + demandOf demands (unvisited.getD i 0))
      simp only [nnBuild, hf, List.map_cons, List.sum_cons]
      rcases hr with h | h
      · rw [h]
        simpa using hfit
      · linarith

/-- The shape invariant of every route Nearest Neighbor pushes: depot
framed, nonempty interior of non-depot indices, demand sum within
capacity. -/
def GoodNNRoute (demands : List ℚ) (cap : ℚ) (r : List Nat) : Prop :=
  ∃ cs : List Nat, cs ≠ [] ∧ r = 0 :: cs ++ [0] ∧ (∀ x ∈ cs, x ≠ 0) ∧
    (cs.map (demandOf demands)).sum ≤ cap

/-- One vehicle step preserves customer counts (the route absorbs
exactly what leaves `unvisited`). -/
lemma nnStep_count (dm : Nat → Nat → ℚ) (demands : List ℚ) (cap : ℚ)
    (unvisited : List Nat) (acc : List (List Nat)) (x : Nat) (hx : x ≠ 0) :
    List.count x (nnStep dm demands cap unvisited acc).1.flatten +
      List.count x (nnStep dm demands cap unvisited acc).2
    = List.count x acc.flatten + List.count x unvisited := by
  have hb := nnBuild_count dm demands cap unvisited.length unvisited 0 0 x
  have h2 : (nnStep dm demands cap unvisited acc).2
      = (nnBuild dm demands cap unvisited.length unvisited 0 0).2 := rfl
  have h1 : (nnStep dm demands cap unvisited acc).1
      = if (nnBuild dm demands cap unvisited.length unvisited 0 0).1.isEmpty then acc
        else acc ++ [0 :: (nnBuild dm demands cap unvisited.length unvisited 0 0).1 ++ [0]] :=
    rfl
  rw [h1, h2]
  by_cases hemp : (nnBuild dm demands cap unvisited.length unvisited 0 0).1.isEmpty = true
  · rw [if_pos hemp]
    have : (nnBuild dm demands cap unvisited.length unvisited 0 0).1 = [] :=
      List.isEmpty_iff.mp hemp
    rw [this] at hb
    simp at hb
    omega
  · rw [if_neg hemp]
    rw [List.flatten_append, List.count_append]
    have hcd : List.count x
        ([0 :: (nnBuild dm demands cap unvisited.length unvisited 0 0).1 ++ [0]] :
          List (List Nat)).flatten
        = List.count x (nnBuild dm demands cap unvisited.length unvisited 0 0).1 := by
      simp only [List.flatten_cons, List.flatten_nil, List.append_nil]
      exact count_depot_framed _ x hx
    rw [hcd]
    omega

/-- One vehicle step preserves the shape/load invariant. -/
lemma nnStep_good (dm : Nat → Nat → ℚ) (demands : List ℚ) (cap : ℚ)
    (unvisited : List Nat) (acc : List (List Nat))
    (hU : ∀ x ∈ unvisited, x ≠ 0)
    (hA : ∀ r ∈ acc, GoodNNRoute demands cap r) :
    (∀ x ∈ (nnStep dm demands cap unvisited acc).2, x ≠ 0) ∧
    (∀ r ∈ (nnStep dm demands cap unvisited acc).1, GoodNNRoute demands cap r) := by
  constructor
  · intro x hxm
    exact hU x (nnBuild_rem_mem dm demands cap unvisited.length unvisited 0 0 x hxm)
  · intro r hr
    have h1 : (nnStep dm demands cap unvisited acc).1
        = if (nnBuild dm demands cap unvisited.length unvisited 0 0).1.isEmpty then acc
          else acc ++ [0 :: (nnBuild dm demands cap unvisited.length unvisited 0 0).1 ++ [0]] :=
      rfl
    rw [h1] at hr
    by_cases hemp : (nnBuild dm demands cap unvisited.length unvisited 0 0).1.isEmpty = true
    · rw [if_pos hemp] at hr
      exact hA r hr
    · rw [if_neg hemp] at hr
      rcases List.mem_append.mp hr with h | h
      · exact hA r h
      · rw [List.mem_singleton.mp h]
        refine ⟨(nnBuild dm demands cap unvisited.length unvisited 0 0).1,
          by simpa [List.isEmpty_iff] using hemp, rfl, ?_, ?_⟩
        · intro x hxm
          exact hU x (nnBuild_mem dm demands cap unvisited.length unvisited 0 0 x hxm)
        · rcases nnBuild_load dm demands cap unvisited.length unvisited 0 0 with h0 | h0
          · exact absurd (by simp [h0]) hemp
          · simpa using h0

/-- The first vehicle loop preserves customer counts. -/
lemma nnVehicleLoop_count (dm : Nat → Nat → ℚ) (demands : List ℚ) (cap : ℚ)
    (x : Nat) (hx : x ≠ 0) :
    ∀ (v : Nat) (unvisited : List Nat) (acc : List (List Nat)),
      List.count x (nnVehicleLoop dm demands cap v unvisited acc).1.flatten +
        List.count x (nnVehicleLoop dm demands cap v unvisited acc).2
      = List.count x acc.flatten + List.count x unvisited := by
  intro v
  induction v with
  | zero => intro unvisited acc; simp [nnVehicleLoop]
  | succ w ih =>
    intro unvisited acc
    by_cases hemp : unvisited.isEmpty = true
    · simp [nnVehicleLoop, hemp]
    · rw [nnVehicleLoop, if_neg hemp]
      rw [ih]
      exact nnStep_count dm demands cap unvisited acc x hx

/-- The first vehicle loop preserves the shape/load invariant. -/
lemma nnVehicleLoop_good (dm : Nat → Nat → ℚ) (demands : List ℚ) (cap : ℚ) :
    ∀ (v : Nat) (unvisited : List Nat) (acc : List (List Nat)),
      (∀ x ∈ unvisited, x ≠ 0) →
      (∀ r ∈ acc, GoodNNRoute demands cap r) →
      (∀ x ∈ (nnVehicleLoop dm demands cap v unvisited acc).2, x ≠ 0) ∧
      (∀ r ∈ (nnVehicleLoop dm demands cap v unvisited acc).1,
        GoodNNRoute demands cap r) := by
  intro v
  induction v with
  | zero => intro unvisited acc hU hA; exact ⟨hU, hA⟩
  | succ w ih =>
    intro unvisited acc hU hA
    by_cases hemp : unvisited.isEmpty = true
    · rw [nnVehicleLoop, if_pos hemp]
      exact ⟨hU, hA⟩
    · rw [nnVehicleLoop, if_neg hemp]
      obtain ⟨hU', hA'⟩ := nnStep_good dm demands cap unvisited acc hU hA
      exact ih _ _ hU' hA'

/-- The trailing loop, when it returns, only drops customers: the
returned count is bounded by what it was handed. -/
lemma nnSecondLoop_count (dm : Nat → Nat → ℚ) (demands : List ℚ) (cap : ℚ)
    (nv : Nat) (x : Nat) (hx : x ≠ 0) :
    ∀ (f : Nat) (unvisited : List Nat) (acc : List (List Nat)) (rs : List (List Nat)),
      nnSecondLoop dm demands cap nv f unvisited acc = some rs →
      List.count x rs.flatten ≤ List.count x acc.flatten + List.count x unvisited := by
  intro f
  induction f with
  | zero =>
    intro unvisited acc rs h
    rw [nnSecondLoop] at h
    split at h
    · exact absurd h (by simp)
    · rw [Option.some_inj.mp h] at *
      omega
  | succ g ih =>
    intro unvisited acc rs h
    rw [nnSecondLoop] at h
    split at h
    · have h1 := ih _ _ rs h
      have h2 := nnStep_count dm demands cap unvisited acc x hx
      omega
    · rw [Option.some_inj.mp h] at *
      omega

/-- The trailing loop, when it returns, preserves the
shape/load invariant. -/
lemma nnSecondLoop_good (dm : Nat → Nat → ℚ) (demands : List ℚ) (cap : ℚ)
    (nv : Nat) :
    ∀ (f : Nat) (unvisited : List Nat) (acc : List (List Nat)) (rs : List (List Nat)),
      (∀ x ∈ unvisited, x ≠ 0) →
      (∀ r ∈ acc, GoodNNRoute demands cap r) →
      nnSecondLoop dm demands cap nv f unvisited acc = some rs →
      ∀ r ∈ rs, GoodNNRoute demands cap r := by
  intro f
  induction f with
  | zero =>
    intro unvisited acc rs hU hA h
    rw [nnSecondLoop] at h
    split at h
    · exact absurd h (by simp)
    · rw [← Option.some_inj.mp h]
      exact hA
  | succ g ih =>
    intro unvisited acc rs hU hA h
    rw [nnSecondLoop] at h
    split at h
    · obtain ⟨hU', hA'⟩ := nnStep_good dm demands cap unvisited acc hU hA
      exact ih _ _ rs hU' hA' h
    · rw [← Option.some_inj.mp h]
      exact hA

/-- A good route's customer-demand sum is within capacity. -/
lemma goodNN_demandSum (demands : List ℚ) (cap : ℚ) (r : List Nat)
    (h : GoodNNRoute demands cap r) : routeDemandSum demands r ≤ cap := by
  obtain ⟨cs, _, hr, hnz, hsum⟩ := h
  rw [hr]
  show ((List.filter (fun x => decide (x ≠ 0)) (0 :: cs ++ [0])).map
    (demandOf demands)).sum ≤ cap
  rw [filter_depot_framed cs hnz]
  exact hsum

/-- Initial single-customer loads are within capacity when every
individual demand is. -/
lemma savingsInit_loads (demands : List ℚ) (cap : ℚ)
    (h : ∀ d ∈ demands, d ≤ cap) :
    ∀ r ∈ savingsInit demands, r.load ≤ cap := by
  intro r hr
  simp only [savingsInit, List.mem_map, List.mem_range] at hr
  obtain ⟨idx, hidx, rfl⟩ := hr
  show demands.getD idx 0 ≤ cap
  rw [List.getD_eq_getElem demands 0 hidx]
  exact h _ (List.getElem_mem hidx)

/-- A good savings record with in-capacity load has an in-capacity
customer-demand sum on its node list. -/
lemma goodSRec_demandSum (demands : List ℚ) (cap : ℚ) (rec : SRec)
    (hg : GoodSRec demands rec) (hl : rec.load ≤ cap) :
    routeDemandSum demands rec.route ≤ cap := by
  obtain ⟨cs, _, hr, hnz, hload⟩ := hg
  rw [hr]
  show ((List.filter (fun x => decide (x ≠ 0)) (0 :: cs ++ [0])).map
    (demandOf demands)).sum ≤ cap
  rw [filter_depot_framed cs hnz, ← hload]
  exact hl

/-- C2 (amended): every route Nearest Neighbor returns is within
capacity unconditionally; every route Clarke-Wright returns is within
capacity provided additionally each individual customer demand is at
most the capacity (otherwise a single-customer route can already
exceed it — see the counterexample). -/
theorem capacity_invariant_constructors
    (dm : Nat → Nat → ℚ) (demands : List ℚ) (cap : ℚ) (nv fuel : Nat)
    (hnv : 1 ≤ nv) (hcap : 0 < cap) (hdem : ∀ d ∈ demands, 0 < d) :
    (∀ rs, nearestNeighborVRP dm demands cap nv fuel = some rs →
      ∀ r ∈ rs, routeDemandSum demands r ≤ cap) ∧
    ((∀ d ∈ demands, d ≤ cap) →
      ∀ r ∈ savingsAlgorithmVRP dm demands cap nv,
        routeDemandSum demands r ≤ cap) := by
  constructor
  · intro rs hrs r hr
    have hinit : ∀ x ∈ List.range' 1 demands.length, x ≠ 0 := by
      intro x hxm
      have := mem_range'_one.mp hxm
      omega
    obtain ⟨hU, hA⟩ := nnVehicleLoop_good dm demands cap nv
      (List.range' 1 demands.length) [] hinit (by intro r' hrm; simp at hrm)
    simp only [nearestNeighborVRP] at hrs
    have hg := nnSecondLoop_good dm demands cap nv fuel _ _ rs hU hA hrs
    exact goodNN_demandSum demands cap r (hg r hr)
  · intro hcapd r hr
    obtain ⟨hG, _, _, _, _, hL⟩ := savingsMergeLoop_facts demands cap nv
      (sortSavingsDesc (savingsPairs dm demands.length)) (savingsInit demands)
      (savingsInit_good demands)
    have hLinit := savingsInit_loads demands cap hcapd
    simp only [savingsAlgorithmVRP, List.mem_map] at hr
    obtain ⟨rec, hrec, rfl⟩ := hr
    exact goodSRec_demandSum demands cap rec (hG rec hrec) (hL hLinit rec hrec)

/-- C2 witness: a concrete feasible two-customer problem on which both
constructors run and both conclusions hold. -/
theorem capacity_invariant_constructors_witness :
    (1 ≤ 2 ∧ (0 : ℚ) < 5 ∧ ∀ d ∈ [(2 : ℚ), 3], 0 < d) ∧
    ((∀ rs, nearestNeighborVRP dmEx [(2 : ℚ), 3] 5 2 2 = some rs →
        ∀ r ∈ rs, routeDemandSum [(2 : ℚ), 3] r ≤ 5) ∧
     ((∀ d ∈ [(2 : ℚ), 3], d ≤ 5) →
        ∀ r ∈ savingsAlgorithmVRP dmEx [(2 : ℚ), 3] 5 2,
          routeDemandSum [(2 : ℚ), 3] r ≤ 5)) :=
  ⟨⟨by decide, by decide, by decide⟩,
   capacity_invariant_constructors dmEx [(2 : ℚ), 3] 5 2 2
     (by decide) (by decide) (by decide)⟩

/-- C2 counterexample: one customer of demand 10, capacity 5, one
vehicle — a problem satisfying the claim's stated invariants — makes
Clarke-Wright return the single route `[0, 1, 0]` whose demand sum 10
exceeds the capacity 5. -/
theorem capacity_invariant_savings_cex :
    (1 ≤ 1 ∧ (0 : ℚ) < 5 ∧ ∀ d ∈ [(10 : ℚ)], 0 < d) ∧
    savingsAlgorithmVRP dmEx [(10 : ℚ)] 5 1 = [[0, 1, 0]] ∧
    ¬ (routeDemandSum [(10 : ℚ)] [0, 1, 0] ≤ 5) := by
  exact ⟨⟨by decide, by decide, by decide⟩, by decide, by decide⟩

/-- C8: within one returned solution of either constructor, no
customer index is served twice — each non-depot index appears at most
once across all routes.  For Nearest Neighbor this is conditional on
the call returning (its trailing loop can diverge, see C3). -/
theorem no_duplicate_service
    (dm : Nat → Nat → ℚ) (demands : List ℚ) (cap : ℚ) (nv fuel : Nat)
    (hnv : 1 ≤ nv) (hcap : 0 < cap) (hdem : ∀ d ∈ demands, 0 < d) :
    (∀ rs, nearestNeighborVRP dm demands cap nv fuel = some rs →
      ∀ c, c ≠ 0 → List.count c rs.flatten ≤ 1) ∧
    (∀ c, c ≠ 0 →
      List.count c (savingsAlgorithmVRP dm demands cap nv).flatten ≤ 1) := by
  constructor
  · intro rs hrs c hc
    simp only [nearestNeighborVRP] at hrs
    have hsec := nnSecondLoop_count dm demands cap nv c hc fuel _ _ rs hrs
    have hveh := nnVehicleLoop_count dm demands cap c hc nv
      (List.range' 1 demands.length) []
    have hinit := count_range'_one_le_one c demands.length
    simp only [List.flatten_nil, List.count_nil] at hveh
    omega
  · intro c hc
    obtain ⟨_, hcount, _, _, _, _⟩ := savingsMergeLoop_facts demands cap nv
      (sortSavingsDesc (savingsPairs dm demands.length)) (savingsInit demands)
      (savingsInit_good demands)
    have h1 := hcount c hc
    have h2 := savingsInit_count demands c hc
    have h3 := count_range'_one_le_one c demands.length
    have hflat : (savingsAlgorithmVRP dm demands cap nv).flatten
        = ((savingsMergeLoop cap nv (sortSavingsDesc (savingsPairs dm demands.length))
            (savingsInit demands)).map SRec.route).flatten := by
      simp [savingsAlgorithmVRP]
    rw [hflat]
    omega

/-- C8 witness: the concrete two-customer problem again; both parts
hold there. -/
theorem no_duplicate_service_witness :
    (1 ≤ 2 ∧ (0 : ℚ) < 5 ∧ ∀ d ∈ [(2 : ℚ), 3], 0 < d) ∧
    ((∀ rs, nearestNeighborVRP dmEx [(2 : ℚ), 3] 5 2 2 = some rs →
        ∀ c, c ≠ 0 → List.count c rs.flatten ≤ 1) ∧
     (∀ c, c ≠ 0 →
        List.count c (savingsAlgorithmVRP dmEx [(2 : ℚ), 3] 5 2).flatten ≤ 1)) :=
  ⟨⟨by decide, by decide, by decide⟩,
   no_duplicate_service dmEx [(2 : ℚ), 3] 5 2 2 (by decide) (by decide) (by decide)⟩

/-- C10: the Clarke-Wright constructor never drops a customer — every
customer index `1..C` occurs exactly once over the returned node
lists, i.e. in exactly one returned route, regardless of demand versus
capacity. -/
theorem savings_serves_every_customer
    (dm : Nat → Nat → ℚ) (demands : List ℚ) (cap : ℚ) (nv : Nat)
    (hC : 1 ≤ demands.length) (c : Nat) (hc1 : 1 ≤ c) (hc2 : c ≤ demands.length) :
    List.count c (savingsAlgorithmVRP dm demands cap nv).flatten = 1 ∧
    List.countP (fun r => decide (c ∈ r)) (savingsAlgorithmVRP dm demands cap nv)
      = 1 := by
  have hcount : List.count c (savingsAlgorithmVRP dm demands cap nv).flatten = 1 := by
    obtain ⟨_, hcnt, _, _, _, _⟩ := savingsMergeLoop_facts demands cap nv
      (sortSavingsDesc (savingsPairs dm demands.length)) (savingsInit demands)
      (savingsInit_good demands)
    have h1 := hcnt c (by omega)
    have h2 := savingsInit_count demands c (by omega)
    have h3 := count_range'_one_eq_one hc1 hc2
    have hflat : (savingsAlgorithmVRP dm demands cap nv).flatten
        = ((savingsMergeLoop cap nv (sortSavingsDesc (savingsPairs dm demands.length))
            (savingsInit demands)).map SRec.route).flatten := by
      simp [savingsAlgorithmVRP]
    rw [hflat]
    omega
  exact ⟨hcount, countP_mem_eq_one_of_count_flatten_eq_one hcount⟩

/-- C10 witness: on the two-customer instance the merge happens and
customer 1 sits in exactly one returned route. -/
theorem savings_serves_every_customer_witness :
    (1 ≤ List.length [(2 : ℚ), 3] ∧ 1 ≤ 1 ∧ 1 ≤ List.length [(2 : ℚ), 3]) ∧
    (List.count 1 (savingsAlgorithmVRP dmEx [(2 : ℚ), 3] 5 1).flatten = 1 ∧
     List.countP (fun r => decide ((1 : Nat) ∈ r))
       (savingsAlgorithmVRP dmEx [(2 : ℚ), 3] 5 1) = 1) :=
  ⟨⟨by decide, by decide, by decide⟩,
   savings_serves_every_customer dmEx [(2 : ℚ), 3] 5 1 (by decide) 1
     (by decide) (by decide)⟩

/-!
2-Opt infrastructure: bounds of the move space, candidate-route facts
(permutation, fixed endpoints), the pass invariant, and the
termination measure (strictly shrinking set of strictly better
permutations).
-/

/-- Bounds satisfied by every `(i, j)` move of a pass. -/
lemma twoOptPairs_mem {len : Nat} {p : Nat × Nat} (h : p ∈ twoOptPairs len) :
    1 ≤ p.1 ∧ p.1 < p.2 ∧ p.2 + 1 < len := by
  obtain ⟨i, j⟩ := p
  simp only [twoOptPairs, List.mem_flatMap, List.mem_map] at h
  obtain ⟨a, ha, b, hb, heq⟩ := h
  rw [List.mem_range'] at ha hb
  obtain ⟨k, hk, rfl⟩ := ha
  obtain ⟨m, hm, rfl⟩ := hb
  rw [Prod.ext_iff] at heq
  obtain ⟨h1, h2⟩ := heq
  simp only at h1 h2
  omega

/-- The list equals its three slices around `[i, j]`. -/
lemma reverseSegment_decomp (route : List Nat) (i j : Nat) (hij : i ≤ j + 1) :
    route = route.take i ++ ((route.drop i).take (j + 1 - i) ++ route.drop (j + 1)) := by
  have h2 : (route.drop i).drop (j + 1 - i) = route.drop (j + 1) := by
    rw [List.drop_drop]
    congr 1
    omega
  conv_lhs => rw [← List.take_append_drop i route,
    ← List.take_append_drop (j + 1 - i) (route.drop i)]
  rw [h2]

/-- A segment reversal permutes the route. -/
lemma reverseSegment_perm (route : List Nat) (i j : Nat) (hij : i ≤ j + 1) :
    (reverseSegment route i j).Perm route := by
  unfold reverseSegment
  conv_rhs => rw [reverseSegment_decomp route i j hij]
  rw [List.append_assoc]
  exact List.Perm.append_left _ (List.Perm.append (List.reverse_perm _) (List.Perm.refl _))

/-- A nonempty prefix keeps the head. -/
lemma head?_take_of_pos (l : List Nat) (i : Nat) (hi : 1 ≤ i) :
    (l.take i).head? = l.head? := by
  cases l with
  | nil => simp
  | cons a t =>
    obtain ⟨n, rfl⟩ : ∃ n, i = n + 1 := ⟨i - 1, by omega⟩
    simp

/-- A segment reversal starting past position 0 keeps the first
element. -/
lemma reverseSegment_head? (route : List Nat) (i j : Nat) (hi : 1 ≤ i) :
    (reverseSegment route i j).head? = route.head? := by
  cases route with
  | nil => simp [reverseSegment]
  | cons a t =>
    obtain ⟨n, rfl⟩ : ∃ n, i = n + 1 := ⟨i - 1, by omega⟩
    simp [reverseSegment]

/-- Appending a nonempty list moves `getLast?` to it. -/
lemma getLast?_append_of_ne_nil (l l' : List Nat) (h : l' ≠ []) :
    (l ++ l').getLast? = l'.getLast? := by
  rw [List.getLast?_append]
  have hs : l'.getLast?.isSome = true := List.getLast?_isSome.mpr h
  obtain ⟨y, hy⟩ := Option.isSome_iff_exists.mp hs
  rw [hy]
  rfl

/-- A proper `drop` keeps the last element. -/
lemma getLast?_drop_eq (l : List Nat) (k : Nat) (hk : k < l.length) :
    (l.drop k).getLast? = l.getLast? := by
  have hne : l.drop k ≠ [] := by
    have h0 : 0 < (l.drop k).length := by
      rw [List.length_drop]
      omega
    exact List.length_pos.mp h0
  conv_rhs => rw [← List.take_append_drop k l]
  rw [getLast?_append_of_ne_nil _ _ hne]

/-- A segment reversal ending before the last position keeps the last
element. -/
lemma reverseSegment_getLast? (route : List Nat) (i j : Nat)
    (hj : j + 1 < route.length) :
    (reverseSegment route i j).getLast? = route.getLast? := by
  unfold reverseSegment
  have hne : route.drop (j + 1) ≠ [] := by
    have h0 : 0 < (route.drop (j + 1)).length := by
      rw [List.length_drop]
      omega
    exact List.length_pos.mp h0
  rw [getLast?_append_of_ne_nil _ _ hne, getLast?_drop_eq route (j + 1) hj]

/-- The invariant carried by the 2-Opt pass fold: the best route is a
permutation of the pass's source route with the same endpoints, the
best distance is its distance, and `improved` records whether the best
distance dropped strictly below the pass's starting value. -/
def TwoOptInv (dm : Nat → Nat → ℚ) (route : List Nat) (D0 : ℚ)
    (st : List Nat × ℚ × Bool) : Prop :=
  st.1.Perm route ∧ st.1.head? = route.head? ∧ st.1.getLast? = route.getLast? ∧
  st.2.1 = calculateRouteDistance dm st.1 ∧
  (st.2.2 = false → st = (route, D0, false)) ∧
  (st.2.2 = true → st.2.1 < D0)

/-- The fold of one pass preserves `TwoOptInv`. -/
lemma twoOptPass_fold_inv (dm : Nat → Nat → ℚ) (route : List Nat) (D0 : ℚ) :
    ∀ (ps : List (Nat × Nat)),
      (∀ p ∈ ps, 1 ≤ p.1 ∧ p.1 < p.2 ∧ p.2 + 1 < route.length) →
      ∀ st, TwoOptInv dm route D0 st →
        TwoOptInv dm route D0 (ps.foldl (fun st p =>
          if calculateRouteDistance dm (reverseSegment route p.1 p.2) < st.2.1 then
            (reverseSegment route p.1 p.2,
             calculateRouteDistance dm (reverseSegment route p.1 p.2), true)
          else st) st) := by
  intro ps
  induction ps with
  | nil => intro _ st h; exact h
  | cons p pt ih =>
    intro hmem st hst
    simp only [List.foldl_cons]
    apply ih (fun q hq => hmem q (List.mem_cons_of_mem _ hq))
    obtain ⟨hp1, hp2, hp3⟩ := hmem p (List.mem_cons_self _ _)
    by_cases hlt : calculateRouteDistance dm (reverseSegment route p.1 p.2) < st.2.1
    · rw [if_pos hlt]
      obtain ⟨h1, h2, h3, h4, h5, h6⟩ := hst
      refine ⟨reverseSegment_perm route p.1 p.2 (by omega),
        reverseSegment_head? route p.1 p.2 hp1,
        reverseSegment_getLast? route p.1 p.2 hp3, rfl,
        by intro hh; simp at hh, ?_⟩
      intro _
      show calculateRouteDistance dm (reverseSegment route p.1 p.2) < D0
      cases hb : st.2.2 with
      | true =>
        have := h6 hb
        linarith
      | false =>
        have hini := h5 hb
        rw [hini] at hlt
        simpa using hlt
    · rw [if_neg hlt]
      exact hst

/-- One pass of 2-Opt satisfies the invariant from a consistent start. -/
lemma twoOptPass_inv (dm : Nat → Nat → ℚ) (route : List Nat) (D0 : ℚ)
    (hD : D0 = calculateRouteDistance dm route) :
    TwoOptInv dm route D0 (twoOptPass dm route D0) := by
  have h := twoOptPass_fold_inv dm route D0 (twoOptPairs route.length)
    (fun p hp => twoOptPairs_mem hp) (route, D0, false)
    ⟨List.Perm.refl _, rfl, rfl, hD, fun _ => rfl, by intro hh; simp at hh⟩
  exact h

/-- The 2-Opt loop, whenever it converges, returns a permutation of
its input with the same endpoints and no larger distance. -/
lemma twoOptLoop_some_inv (dm : Nat → Nat → ℚ) :
    ∀ (f : Nat) (best : List Nat) (bestD : ℚ) (r : List Nat),
      bestD = calculateRouteDistance dm best →
      twoOptLoop dm f best bestD = some r →
      r.Perm best ∧ r.head? = best.head? ∧ r.getLast? = best.getLast? ∧
        calculateRouteDistance dm r ≤ bestD := by
  intro f
  induction f with
  | zero => intro best bestD r _ h; simp [twoOptLoop] at h
  | succ g ih =>
    intro best bestD r hD h
    rw [twoOptLoop] at h
    obtain ⟨hperm, hhead, hlast, hdist, hfalse, htrue⟩ := twoOptPass_inv dm best bestD hD
    by_cases himp : (twoOptPass dm best bestD).2.2 = true
    · rw [if_pos himp] at h
      obtain ⟨h1, h2, h3, h4⟩ := ih (twoOptPass dm best bestD).1
        (twoOptPass dm best bestD).2.1 r hdist h
      have hlt := htrue himp
      exact ⟨h1.trans hperm, h2.trans hhead, h3.trans hlast, by linarith⟩
    · rw [if_neg himp] at h
      have hini := hfalse (by simpa using himp)
      have hr : r = (twoOptPass dm best bestD).1 := (Option.some_inj.mp h).symm
      rw [hr, hini]
      exact ⟨List.Perm.refl _, rfl, rfl, le_of_eq hD.symm⟩

/-- C4: `twoOptImprovement` never increases the route distance, keeps
the multiset of node indices (stated as a permutation), and keeps the
first and last elements. -/
theorem twoOpt_nonregression (dm : Nat → Nat → ℚ) (route : List Nat) :
    calculateRouteDistance dm (twoOptImprovement dm route)
        ≤ calculateRouteDistance dm route ∧
    (twoOptImprovement dm route).Perm route ∧
    (twoOptImprovement dm route).head? = route.head? ∧
    (twoOptImprovement dm route).getLast? = route.getLast? := by
  unfold twoOptImprovement
  cases h : twoOptLoop dm (route.permutations.length + 1) route
      (calculateRouteDistance dm route) with
  | none => exact ⟨le_refl _, List.Perm.refl _, rfl, rfl⟩
  | some r =>
    obtain ⟨h1, h2, h3, h4⟩ := twoOptLoop_some_inv dm _ route _ r rfl h
    exact ⟨h4, h1, h2, h3⟩

/-- Each improving pass strictly shrinks the set of permutations of
the original route that are strictly better than the current best, so
the loop converges within `permutations.length + 1` passes. -/
lemma twoOptLoop_terminates (dm : Nat → Nat → ℚ) (route0 : List Nat) :
    ∀ (f : Nat) (best : List Nat) (bestD : ℚ),
      best.Perm route0 →
      bestD = calculateRouteDistance dm best →
      List.countP (fun r => decide (calculateRouteDistance dm r < bestD))
        route0.permutations < f →
      (twoOptLoop dm f best bestD).isSome = true := by
  intro f
  induction f with
  | zero => intro best bestD _ _ h; omega
  | succ g ih =>
    intro best bestD hperm0 hD hcount
    rw [twoOptLoop]
    obtain ⟨hperm, _, _, hdist, _, htrue⟩ := twoOptPass_inv dm best bestD hD
    by_cases himp : (twoOptPass dm best bestD).2.2 = true
    · rw [if_pos himp]
      apply ih (twoOptPass dm best bestD).1 (twoOptPass dm best bestD).2.1
        (hperm.trans hperm0) hdist
      have hlt := htrue himp
      have hmem : (twoOptPass dm best bestD).1 ∈ route0.permutations :=
        List.mem_permutations.mpr (hperm.trans hperm0)
      have hstrict := countP_lt_countP_of_witness
        (fun r => decide (calculateRouteDistance dm r < (twoOptPass dm best bestD).2.1))
        (fun r => decide (calculateRouteDistance dm r < bestD))
        route0.permutations
        (by
          intro x _ hx
          simp only [decide_eq_true_eq] at hx ⊢
          linarith)
        (twoOptPass dm best bestD).1 hmem
        (by
          simp only [decide_eq_true_eq]
          rw [← hdist]
          exact hlt)
        (by
          simp only [decide_eq_false_iff_not]
          rw [← hdist]
          exact lt_irrefl _)
      omega
    · rw [if_neg himp]
      rfl

/-- C9: the 2-Opt outer loop performs only finitely many passes — with
fuel `route.permutations.length + 1` (the definitional fuel of
`twoOptImprovement`) it reaches a pass with no improving move and
returns. -/
theorem twoOpt_terminates (dm : Nat → Nat → ℚ) (route : List Nat) :
    (twoOptLoop dm (route.permutations.length + 1) route
      (calculateRouteDistance dm route)).isSome = true := by
  apply twoOptLoop_terminates dm route _ route _ (List.Perm.refl _) rfl
  have h := List.countP_le_length
    (fun r => decide (calculateRouteDistance dm r < calculateRouteDistance dm route))
    (l := route.permutations)
  omega
